import Mathlib

/-!
Shallow embedding of the computational core of the `panim` pulse-animation
library (`panim/core.py` and `panim/resonator.py`), together with proofs of
the specified properties of those functions.

Arrays of floats are modelled as lists of real numbers; numpy's elementwise
arithmetic becomes `List.map`, and the reductions `sum`/`max`/`min` become
`Finset.sum` and folds.  The two library helpers the code calls,
`numpy.linspace` and `scipy.signal.windows.gaussian`, are embedded from their
documented semantics.
-/

noncomputable section

namespace Panim

/-- Speed of light, normalized to 1 for simulations (module-level constant `c`
in both `panim/core.py` and `panim/resonator.py`). -/
def c : ℝ := 1

/-- Embedding of `wave_vector` from `panim/core.py`: Taylor expansion of the
wave vector around the center frequency,
k0 + k1*(omega - omega0) + k2*(omega - omega0)^2 + k3*(omega - omega0)^3
with omega = 2*pi*nu and omega0 = 2*pi*nu_center. -/
def wave_vector (nu nu_center k_0 k_1 k_2 k_3 : ℝ) : ℝ :=
  let omega := 2 * Real.pi * nu
  let omega_0 := 2 * Real.pi * nu_center
  let delta_omega := omega - omega_0
  k_0 + k_1 * delta_omega + k_2 * delta_omega ^ 2 + k_3 * delta_omega ^ 3

/-- Embedding of `numpy.linspace(start, stop, num)`: the i-th of `num` points
evenly spaced from `start` to `stop` inclusive; for `num = 1` the single
point is `start` (and for `num = 0` the array is empty, so the value at any
index is irrelevant). -/
def linspace (start stop : ℝ) (num : ℕ) (i : ℕ) : ℝ :=
  if num ≤ 1 then start else start + i * (stop - start) / ((num : ℝ) - 1)

/-- Embedding of `scipy.signal.windows.gaussian(M, std)` (symmetric window):
entry i is exp(-n^2 / (2*std^2)) with n = i - (M-1)/2; for M ≤ 1 the window
is all ones (which for M = 1 agrees with the formula). -/
def windows_gaussian (M : ℕ) (std : ℝ) (i : ℕ) : ℝ :=
  if M ≤ 1 then 1
  else Real.exp (-((i : ℝ) - ((M : ℝ) - 1) / 2) ^ 2 / (2 * std ^ 2))

/-- The dispersion-coefficient handling in `compute_spectral_field`:
`k_i = list(k_coefficients) + [0.0] * (4 - len(k_coefficients))` (Python's
negative repetition count gives the empty list, matching truncated natural
subtraction) followed by the slice `k_i[:4]` that is unpacked into the four
coefficient arguments of `wave_vector`. -/
def k_padded (ks : List ℝ) : List ℝ :=
  (ks ++ List.replicate (4 - ks.length) 0).take 4

/-- Embedding of `compute_spectral_field` from `panim/core.py`: the electric
field along the spatial axis `z` at time `t`, as the Gaussian-weighted sum of
`n_frequencies` plane waves on the frequency grid from `nu_min` to
`nu_center * 2`.  `k_coefficients = none` models the Python default `None`,
replaced in the body by `[1.0, 5.0, 0.0]`. -/
def compute_spectral_field (z : List ℝ) (t nu_center nu_min : ℝ)
    (n_frequencies : ℕ) (spec_width : ℝ) (k_coefficients : Option (List ℝ)) :
    List ℝ :=
  let ks := k_padded (k_coefficients.getD [1, 5, 0])
  z.map fun zj =>
    ∑ i ∈ Finset.range n_frequencies,
      windows_gaussian n_frequencies spec_width i *
        Real.sin (2 * Real.pi * linspace nu_min (nu_center * 2) n_frequencies i * t -
          wave_vector (linspace nu_min (nu_center * 2) n_frequencies i) nu_center
              (ks.getD 0 0) (ks.getD 1 0) (ks.getD 2 0) (ks.getD 3 0) * zj)

/-- Embedding of `calc_pulses` from `panim/core.py`: one row per point of the
uniform time grid from `t_start` to `t_end`, each row a call of
`compute_spectral_field` (with the Python defaults `nu_min = 0.001` and
`n_frequencies = 4000`, which `calc_pulses` does not override).
`show_progress` only chooses whether the index iterator is wrapped in a
`tqdm` progress display, which yields exactly the same indices. -/
def calc_pulses (z : List ℝ) (t_start t_end : ℝ) (n_steps : ℕ)
    (nu_center : ℝ) (k_i : Option (List ℝ)) (spec_width : ℝ)
    (show_progress : Bool) : List (List ℝ) :=
  let ks := k_i.getD [1, 5, 0]
  let iterator := if show_progress then List.range n_steps else List.range n_steps
  iterator.map fun i =>
    compute_spectral_field z (linspace t_start t_end n_steps i) nu_center 0.001
      4000 spec_width (some ks)

/-- Model of `numpy`'s `z.max()` on a nonempty array (the empty case never
arises under the claims' hypotheses). -/
def listMax : List ℝ → ℝ
  | [] => 0
  | x :: xs => xs.foldl max x

/-- Model of `numpy`'s `z.min()` on a nonempty array. -/
def listMin : List ℝ → ℝ
  | [] => 0
  | x :: xs => xs.foldl min x

/-- Embedding of `resonator_modes` from `panim/resonator.py` (value part only:
the `plot`, `figuresize` and `savedir` arguments drive figure side effects
and do not touch the returned array).  `rng i` models the i-th draw of
`np.random.uniform(0, 200, n_modes)` from the external random source; with
`random_phases = false` the code uses `np.zeros(n_modes)` instead, and the
spectrum is the all-ones weight `np.ones(n_modes)`. -/
def resonator_modes (t : ℝ) (z : List ℝ) (n_modes : ℕ) (random_phases : Bool)
    (rng : ℕ → ℝ) : List (List ℝ) :=
  let cavity_length := listMax z - listMin z
  let delta_nu := c / (2 * cavity_length)
  let frequencies : ℕ → ℝ := fun i => delta_nu * ((i : ℝ) + 1)
  let phases : ℕ → ℝ := if random_phases then rng else fun _ => 0
  let spectrum : ℕ → ℝ := fun _ => 1
  (List.range n_modes).map fun i =>
    let omega := 2 * Real.pi * frequencies i
    let k := omega / c
    z.map fun zj => spectrum i * Real.sin (2 * omega * t - phases i) * Real.sin (k * zj)

/-- An element selected by `getD` at a valid index is a member of the list. -/
theorem getD_mem {α : Type} (l : List α) (n : ℕ) (d : α) (h : n < l.length) :
    l.getD n d ∈ l := by
  rw [List.getD_eq_getElem l d h]
  exact List.getElem_mem h

/-- C4: the Wave-Vector Model returns k0 + k1*dw + k2*dw^2 + k3*dw^3 with
dw = 2*pi*(nu - nu_center), for every frequency and coefficients; and with
every coefficient at its default (k0 = 1, k1 = k2 = k3 = 0) the result is
identically 1. -/
theorem wave_vector_spec (nu nu_center k_0 k_1 k_2 k_3 : ℝ) :
    wave_vector nu nu_center k_0 k_1 k_2 k_3 =
      k_0 + k_1 * (2 * Real.pi * (nu - nu_center)) +
        k_2 * (2 * Real.pi * (nu - nu_center)) ^ 2 +
        k_3 * (2 * Real.pi * (nu - nu_center)) ^ 3 ∧
    wave_vector nu nu_center 1 0 0 0 = 1 := by
  constructor
  · simp only [wave_vector]
    ring
  · simp [wave_vector]

/-- C1: the Spectral Field Synthesizer returns an array of the same length M
as the spatial axis whose j-th entry is the sum over i = 0..N-1 of
envelope[i] * sin(2*pi*nu_i*t - k(nu_i)*z_j), where nu_i is the i-th of N
points linearly spaced from nu_min to 2*nu_center, envelope is the Gaussian
spectral envelope of length N, and k is the Wave-Vector Model with the given
coefficients; for N = 0 the output is the zero array of length M. -/
theorem compute_spectral_field_spec (z : List ℝ) (t nu_center nu_min : ℝ)
    (N : ℕ) (sigma k_0 k_1 k_2 k_3 : ℝ) :
    (compute_spectral_field z t nu_center nu_min N sigma
        (some [k_0, k_1, k_2, k_3])).length = z.length ∧
    (∀ j, j < z.length →
      (compute_spectral_field z t nu_center nu_min N sigma
          (some [k_0, k_1, k_2, k_3])).getD j 0 =
        ∑ i ∈ Finset.range N,
          windows_gaussian N sigma i *
            Real.sin (2 * Real.pi * linspace nu_min (nu_center * 2) N i * t -
              wave_vector (linspace nu_min (nu_center * 2) N i) nu_center
                  k_0 k_1 k_2 k_3 * z.getD j 0)) ∧
    (N = 0 →
      compute_spectral_field z t nu_center nu_min N sigma
          (some [k_0, k_1, k_2, k_3]) = List.replicate z.length 0) := by
  refine ⟨by simp [compute_spectral_field], ?_, ?_⟩
  · intro j hj
    have hj' : j < (compute_spectral_field z t nu_center nu_min N sigma
        (some [k_0, k_1, k_2, k_3])).length := by
      simpa [compute_spectral_field] using hj
    rw [List.getD_eq_getElem _ _ hj', List.getD_eq_getElem _ _ hj]
    simp [compute_spectral_field, k_padded]
  · intro hN
    subst hN
    simp [compute_spectral_field, List.map_const']

/-- Witness for C1 at z = [5], t = 0, N = 0. -/
theorem compute_spectral_field_spec_witness :
    (compute_spectral_field [(5 : ℝ)] 0 1 0.001 0 200
        (some [1, 5, 0, 0])).getD 0 0 =
      (∑ i ∈ Finset.range 0,
        windows_gaussian 0 200 i *
          Real.sin (2 * Real.pi * linspace 0.001 (1 * 2) 0 i * 0 -
            wave_vector (linspace 0.001 (1 * 2) 0 i) 1 1 5 0 0 *
              ([(5 : ℝ)]).getD 0 0)) ∧
    compute_spectral_field [(5 : ℝ)] 0 1 0.001 0 200 (some [1, 5, 0, 0]) =
      List.replicate (List.length [(5 : ℝ)]) 0 :=
  ⟨(compute_spectral_field_spec [5] 0 1 0.001 0 200 1 5 0 0).2.1 0 (by norm_num),
   (compute_spectral_field_spec [5] 0 1 0.001 0 200 1 5 0 0).2.2 rfl⟩

/-- C2: the Pulse Time-Series Builder returns n_steps rows, row i being the
Spectral Field Synthesizer evaluated at the i-th point of the uniform time
grid from t_start to t_end (with the builder's fixed spectral defaults
nu_min = 0.001 and n_frequencies = 4000 and the shared remaining
parameters); in particular row 0 is a direct Synthesizer call at t_start. -/
theorem calc_pulses_spec (z : List ℝ) (t_start t_end : ℝ) (n_steps : ℕ)
    (nu_center : ℝ) (ks : List ℝ) (spec_width : ℝ) (sp : Bool) :
    (calc_pulses z t_start t_end n_steps nu_center (some ks) spec_width
        sp).length = n_steps ∧
    (∀ i, i < n_steps →
      (calc_pulses z t_start t_end n_steps nu_center (some ks) spec_width
          sp).getD i [] =
        compute_spectral_field z (linspace t_start t_end n_steps i) nu_center
          0.001 4000 spec_width (some ks)) ∧
    (0 < n_steps →
      (calc_pulses z t_start t_end n_steps nu_center (some ks) spec_width
          sp).getD 0 [] =
        compute_spectral_field z t_start nu_center 0.001 4000 spec_width
          (some ks)) := by
  have hrow : ∀ i, i < n_steps →
      (calc_pulses z t_start t_end n_steps nu_center (some ks) spec_width
          sp).getD i [] =
        compute_spectral_field z (linspace t_start t_end n_steps i) nu_center
          0.001 4000 spec_width (some ks) := by
    intro i hi
    have hi' : i < (calc_pulses z t_start t_end n_steps nu_center (some ks)
        spec_width sp).length := by
      simpa [calc_pulses] using hi
    rw [List.getD_eq_getElem _ _ hi']
    cases sp <;> simp [calc_pulses]
  refine ⟨by cases sp <;> simp [calc_pulses], hrow, ?_⟩
  intro hpos
  rw [hrow 0 hpos]
  have : linspace t_start t_end n_steps 0 = t_start := by
    unfold linspace
    split <;> simp
  rw [this]

/-- Witness for C2 at z = [0], time grid of one step from 0 to 1. -/
theorem calc_pulses_spec_witness :
    (calc_pulses [(0 : ℝ)] 0 1 1 1 (some [1]) 1 false).getD 0 [] =
      compute_spectral_field [(0 : ℝ)] (linspace 0 1 1 0) 1 0.001 4000 1
        (some [1]) ∧
    (calc_pulses [(0 : ℝ)] 0 1 1 1 (some [1]) 1 false).getD 0 [] =
      compute_spectral_field [(0 : ℝ)] 0 1 0.001 4000 1 (some [1]) :=
  ⟨(calc_pulses_spec [0] 0 1 1 1 [1] 1 false).2.1 0 (by norm_num),
   (calc_pulses_spec [0] 0 1 1 1 [1] 1 false).2.2 (by norm_num)⟩

/-- C8: the Pulse Time-Series Builder returns the same numeric array whether
the progress indicator is enabled or disabled; the progress sink never
affects numeric results. -/
theorem calc_pulses_progress_independent (z : List ℝ) (t_start t_end : ℝ)
    (n_steps : ℕ) (nu_center : ℝ) (k_i : Option (List ℝ))
    (spec_width : ℝ) :
    calc_pulses z t_start t_end n_steps nu_center k_i spec_width true =
      calc_pulses z t_start t_end n_steps nu_center k_i spec_width false :=
  rfl

/-- Coefficient lists longer than four are truncated by the slice `k_i[:4]`:
padding then slicing agrees with slicing first. -/
theorem k_padded_take (ks : List ℝ) (h : 4 ≤ ks.length) :
    k_padded (ks.take 4) = k_padded ks := by
  unfold k_padded
  rw [Nat.sub_eq_zero_of_le h, Nat.sub_eq_zero_of_le (by simp [h])]
  simp [List.take_take]

/-- C9: the Spectral Field Synthesizer silently ignores dispersion
coefficients beyond the fourth: a coefficient list of length greater than 4
yields the same output as its first four entries alone. -/
theorem compute_spectral_field_extra_coefficients (z : List ℝ)
    (t nu_center nu_min : ℝ) (N : ℕ) (sigma : ℝ) (ks : List ℝ)
    (h : 4 < ks.length) :
    compute_spectral_field z t nu_center nu_min N sigma (some ks) =
      compute_spectral_field z t nu_center nu_min N sigma
        (some (ks.take 4)) := by
  unfold compute_spectral_field
  rw [Option.getD_some, Option.getD_some, k_padded_take ks (le_of_lt h)]

/-- Witness for C9 with the five-element coefficient list [1,2,3,4,5]. -/
theorem compute_spectral_field_extra_coefficients_witness :
    compute_spectral_field [(0 : ℝ)] 0 1 0.001 1 1 (some [1, 2, 3, 4, 5]) =
      compute_spectral_field [(0 : ℝ)] 0 1 0.001 1 1
        (some (([1, 2, 3, 4, 5] : List ℝ).take 4)) :=
  compute_spectral_field_extra_coefficients [0] 0 1 0.001 1 1 [1, 2, 3, 4, 5]
    (by norm_num)

/-- C3: with zero phases (random_phases = false) the Resonator Mode Engine
returns n_modes rows of length M, the row of mode index i (0-based; mode
number i+1) being sin(2*omega*t) * sin(omega/c * z) elementwise, with
omega = 2*pi*delta_nu*(i+1) and delta_nu = c/(2*(max z - min z)). -/
theorem resonator_modes_spec (t : ℝ) (z : List ℝ) (n_modes : ℕ)
    (rng : ℕ → ℝ) (h : listMin z < listMax z) :
    (resonator_modes t z n_modes false rng).length = n_modes ∧
    ∀ i, i < n_modes →
      ((resonator_modes t z n_modes false rng).getD i []).length = z.length ∧
      (resonator_modes t z n_modes false rng).getD i [] =
        z.map fun zj =>
          Real.sin (2 * (2 * Real.pi *
              (c / (2 * (listMax z - listMin z)) * ((i : ℝ) + 1))) * t) *
            Real.sin (2 * Real.pi *
              (c / (2 * (listMax z - listMin z)) * ((i : ℝ) + 1)) / c * zj) := by
  have hlen : (resonator_modes t z n_modes false rng).length = n_modes := by
    simp [resonator_modes]
  have hrow : ∀ i, i < n_modes →
      (resonator_modes t z n_modes false rng).getD i [] =
        z.map fun zj =>
          Real.sin (2 * (2 * Real.pi *
              (c / (2 * (listMax z - listMin z)) * ((i : ℝ) + 1))) * t) *
            Real.sin (2 * Real.pi *
              (c / (2 * (listMax z - listMin z)) * ((i : ℝ) + 1)) / c * zj) := by
    intro i hi
    have hi' : i < (resonator_modes t z n_modes false rng).length := by
      rw [hlen]; exact hi
    rw [List.getD_eq_getElem _ _ hi']
    simp [resonator_modes]
  exact ⟨hlen, fun i hi => ⟨by rw [hrow i hi]; simp, hrow i hi⟩⟩

/-- Witness for C3 at t = 0, z = [0, 1], a single mode. -/
theorem resonator_modes_spec_witness :
    (resonator_modes 0 [(0 : ℝ), 1] 1 false fun _ => 0).length = 1 ∧
    ((resonator_modes 0 [(0 : ℝ), 1] 1 false fun _ => 0).getD 0 []).length =
      List.length [(0 : ℝ), 1] ∧
    (resonator_modes 0 [(0 : ℝ), 1] 1 false fun _ => 0).getD 0 [] =
      [(0 : ℝ), 1].map fun zj =>
        Real.sin (2 * (2 * Real.pi *
            (c / (2 * (listMax [(0 : ℝ), 1] - listMin [(0 : ℝ), 1])) *
              (((0 : ℕ) : ℝ) + 1))) * 0) *
          Real.sin (2 * Real.pi *
            (c / (2 * (listMax [(0 : ℝ), 1] - listMin [(0 : ℝ), 1])) *
              (((0 : ℕ) : ℝ) + 1)) / c * zj) :=
  ⟨(resonator_modes_spec 0 [0, 1] 1 (fun _ => 0)
      (by simp [listMin, listMax])).1,
   ((resonator_modes_spec 0 [0, 1] 1 (fun _ => 0)
      (by simp [listMin, listMax])).2 0 (by norm_num)).1,
   ((resonator_modes_spec 0 [0, 1] 1 (fun _ => 0)
      (by simp [listMin, listMax])).2 0 (by norm_num)).2⟩

/-- C6: with random_phases = false the Resonator Mode Engine never consults
the random source: two calls with identical (t, z, n_modes) agree whatever
the external random draws would have been. -/
theorem resonator_modes_deterministic (t : ℝ) (z : List ℝ) (n_modes : ℕ)
    (rng1 rng2 : ℕ → ℝ) :
    resonator_modes t z n_modes false rng1 =
      resonator_modes t z n_modes false rng2 :=
  rfl

/-- C10: with max z > min z, every entry of the Resonator Mode Engine's
output lies in [-1, 1] for every call — zero or random phases alike:
each mode has unit spectral weight and is a product of two sine factors. -/
theorem resonator_modes_bounded (t : ℝ) (z : List ℝ) (n_modes : ℕ)
    (random_phases : Bool) (rng : ℕ → ℝ) (h : listMin z < listMax z) :
    ∀ row ∈ resonator_modes t z n_modes random_phases rng, ∀ x ∈ row,
      -1 ≤ x ∧ x ≤ 1 := by
  intro row hrow x hx
  simp only [resonator_modes, List.mem_map, List.mem_range] at hrow
  obtain ⟨i, _, rfl⟩ := hrow
  simp only [List.mem_map] at hx
  obtain ⟨zj, _, rfl⟩ := hx
  have hb : |(1 : ℝ) * Real.sin (2 * (2 * Real.pi *
        (c / (2 * (listMax z - listMin z)) * ((i : ℝ) + 1))) * t -
        (if random_phases then rng else fun _ => (0 : ℝ)) i) *
      Real.sin (2 * Real.pi *
        (c / (2 * (listMax z - listMin z)) * ((i : ℝ) + 1)) / c * zj)| ≤ 1 := by
    rw [one_mul, abs_mul]
    exact mul_le_one₀ (Real.abs_sin_le_one _) (abs_nonneg _)
      (Real.abs_sin_le_one _)
  exact abs_le.mp hb

/-- Witness for C10: the first entry of the first mode at t = 0, z = [0, 1]
with a random phase draw of 37 lies in [-1, 1]. -/
theorem resonator_modes_bounded_witness :
    -1 ≤ ((resonator_modes 0 [(0 : ℝ), 1] 1 true fun _ => 37).getD 0
        []).getD 0 0 ∧
      ((resonator_modes 0 [(0 : ℝ), 1] 1 true fun _ => 37).getD 0
        []).getD 0 0 ≤ 1 :=
  resonator_modes_bounded 0 [0, 1] 1 true (fun _ => 37)
    (by simp [listMin, listMax])
    _ (getD_mem _ _ _ (by simp [resonator_modes]))
    _ (getD_mem _ _ _ (by simp [resonator_modes]))

/-- C7 counterexample: at N = 2, sigma = 1, index i = 1 the code's envelope
entry is exp(-1/8) (center (N-1)/2 = 1/2), while the claimed formula
exp(-0.5*((i - N/2)/sigma)^2) gives exp(0) = 1; the two differ. -/
theorem windows_gaussian_counterexample :
    windows_gaussian 2 1 1 ≠
      Real.exp (-0.5 * (((1 : ℝ) - 2 / 2) / 1) ^ 2) := by
  have h1 : windows_gaussian 2 1 1 = Real.exp (-(1 / 8)) := by
    unfold windows_gaussian
    rw [if_neg (by norm_num)]
    congr 1
    norm_num
  have h2 : Real.exp (-0.5 * (((1 : ℝ) - 2 / 2) / 1) ^ 2) = 1 := by
    norm_num
  rw [h1, h2]
  exact ne_of_lt (Real.exp_lt_one_iff.mpr (by norm_num))

/-- C7 amended: the Gaussian spectral envelope of length N with width sigma
has i-th entry exp(-0.5*((i - (N-1)/2)/sigma)^2) — centered at (N-1)/2, not
N/2 — and it is symmetric: envelope[i] = envelope[N-1-i] for all i < N. -/
theorem windows_gaussian_spec (N : ℕ) (sigma : ℝ) (i : ℕ) (hi : i < N) :
    windows_gaussian N sigma i =
      Real.exp (-(1 / 2) * (((i : ℝ) - ((N : ℝ) - 1) / 2) / sigma) ^ 2) ∧
    windows_gaussian N sigma i = windows_gaussian N sigma (N - 1 - i) := by
  rcases Nat.lt_or_ge N 2 with hN | hN
  · have hN1 : N = 1 := by omega
    have hi0 : i = 0 := by omega
    subst hN1; subst hi0
    constructor
    · simp [windows_gaussian]
    · rfl
  · have hg : ¬N ≤ 1 := by omega
    have h1 : 1 ≤ N := by omega
    have h2 : i ≤ N - 1 := by omega
    constructor
    · unfold windows_gaussian
      rw [if_neg hg]
      congr 1
      ring
    · unfold windows_gaussian
      rw [if_neg hg, if_neg hg]
      congr 1
      rw [Nat.cast_sub h2, Nat.cast_sub h1]
      push_cast
      ring

/-- Witness for C7 amended at N = 2, sigma = 1, i = 0. -/
theorem windows_gaussian_spec_witness :
    windows_gaussian 2 1 0 =
      Real.exp (-(1 / 2) * ((((0 : ℕ) : ℝ) - (((2 : ℕ) : ℝ) - 1) / 2) / 1) ^ 2) ∧
    windows_gaussian 2 1 0 = windows_gaussian 2 1 (2 - 1 - 0) :=
  windows_gaussian_spec 2 1 0 (by norm_num)

/-- C5 counterexample: called with a zero-length Frequency Grid
(n_frequencies = 0) the Spectral Field Synthesizer does not fail: it
silently returns the degenerate zero array over the spatial axis. -/
theorem compute_spectral_field_counterexample :
    compute_spectral_field [(0 : ℝ), 1] 0 1 0.001 0 200 none = [0, 0] := by
  simp [compute_spectral_field]

/-- C5 amended: the Synthesizer performs no input validation: for every
spatial axis (empty and non-monotonic ones included) a zero-length
Frequency Grid produces the silently-degenerate zero array of length M
rather than an invalid-argument failure. -/
theorem compute_spectral_field_no_validation (z : List ℝ)
    (t nu_center nu_min sigma : ℝ) (ks : Option (List ℝ)) :
    compute_spectral_field z t nu_center nu_min 0 sigma ks =
      List.replicate z.length 0 := by
  simp [compute_spectral_field, List.map_const']

end Panim
